import Mathlib

/-!
Verification of the chunked brute-force search engine of `hdifinder`
(`src/main.rs`, `src/models.rs`).

The derivation pipeline (mnemonic to seed, BIP-32 key derivation, address
encoding) is the external collaborator of the specification; it is
abstracted as a function `deriv : Nat → List (String × String)` producing
the ordered candidate list (kind, value) at each index, exactly as
`address_compute` produces `[(kind, value); 3]` in the source.

Machine arithmetic: the source uses `usize`. Wrapping (release-profile)
semantics are modelled explicitly with `% 2^64`; places where the debug
profile would instead panic on overflow are noted at the relevant
theorems. `usize` division panics on a zero divisor in both profiles,
which is modelled by `Except`.
-/

namespace HDIFinder

/-- Width of `usize` on a 64-bit target. -/
def USIZE : Nat := 2 ^ 64

/-- Wrapping `usize` addition (release profile). -/
def usizeAdd (a b : Nat) : Nat := (a + b) % USIZE

/-- Wrapping `usize` subtraction (release profile): two's complement wrap
for operands below `2^64`. -/
def usizeSub (a b : Nat) : Nat := (USIZE + a - b) % USIZE

/-- Wrapping `usize` multiplication (release profile). -/
def usizeMul (a b : Nat) : Nat := a * b % USIZE

/-- `SearchConfig` from `src/models.rs`. -/
structure SearchConfig where
  start : Nat
  «end» : Nat
  chunksize : Nat
  passphrase : String
  address : String
deriving DecidableEq

/-- `ExecutionConf` from `src/models.rs`: one chunk, a half-open index
range handed to `executor`. -/
structure ExecutionConf where
  start : Nat
  «end» : Nat
deriving DecidableEq

/-- The command-line arguments consumed by `load_config`: each optional
flag is either absent (`none`) or present with a string value. -/
structure Args where
  passphrase : Option String
  start : Option String
  «end» : Option String
  chunksize : Option String
  address : Option String

/-- Digit accumulator of `usize::from_str`: consumes the remaining
characters, failing on any non-digit. -/
def parseDigitsGo : Nat → List Char → Option Nat
  | acc, [] => some acc
  | acc, c :: rest =>
    if c.isDigit then parseDigitsGo (acc * 10 + (c.toNat - 48)) rest else none

/-- Digit run of `usize::from_str`: at least one character, all digits. -/
def parseDigits : List Char → Option Nat
  | [] => none
  | cs => parseDigitsGo 0 cs

/-- `str::parse::<usize>`: an optional leading `+`, then a non-empty run
of ASCII digits whose value fits in `usize`; anything else is a parse
error (`none`). -/
def parseUsize (s : String) : Option Nat :=
  let cs :=
    match s.data with
    | '+' :: rest => rest
    | cs => cs
  match parseDigits cs with
  | some n => if n < USIZE then some n else none
  | none => none

/-- `load_config` from `src/main.rs` (lines 175-240): builds the
`SearchConfig` from the parsed arguments. An absent or unparsable
`start`/`end`/`chunksize` silently becomes its default (`0`, `10000000`,
`2500`); an absent passphrase becomes `""`; an absent address makes the
process exit (`none` here). -/
def load_config (args : Args) : Option SearchConfig :=
  let passphrase :=
    match args.passphrase with
    | some r => r
    | none => ""
  let start :=
    match args.start with
    | some r => (parseUsize r).getD 0
    | none => 0
  let endv :=
    match args.«end» with
    | some r => (parseUsize r).getD 10000000
    | none => 10000000
  let chunksize :=
    match args.chunksize with
    | some r => (parseUsize r).getD 2500
    | none => 2500
  match args.address with
  | some r => some ⟨start, endv, chunksize, passphrase, r⟩
  | none => none

/-- `get_executor_config` from `src/main.rs` (lines 253-268). Note that
`conf.start` is `iteration * chunksize`: `config.start` is never read. -/
def get_executor_config (config : SearchConfig) (iteration : Nat) : ExecutionConf :=
  let s := usizeMul iteration config.chunksize
  let remaining := usizeSub config.«end» (usizeMul iteration config.chunksize)
  if remaining < config.chunksize then
    ⟨s, usizeAdd s remaining⟩
  else
    ⟨s, usizeAdd s config.chunksize⟩

/-- The slice count of `main` (line 319):
`(config.end - config.start) / config.chunksize`. Division of `usize` by
zero panics in Rust, modelled as `Except.error`. -/
def slicesChecked (config : SearchConfig) : Except String Nat :=
  if config.chunksize = 0 then .error "attempt to divide by zero"
  else .ok (usizeSub config.«end» config.start / config.chunksize)

/-- The inner candidate loop of `executor` (lines 131-135): return the
first candidate pair whose value component equals the target address. -/
def findMatch (address : String) : List (String × String) → Option (String × String)
  | [] => none
  | c :: rest => if c.2 = address then some c else findMatch address rest

/-- Outer loop of `executor`: scan `fuel` consecutive indices starting at
`i`, returning `(index, value, kind)` at the first index whose candidate
list contains the target. -/
def executorGo (address : String) (deriv : Nat → List (String × String)) :
    Nat → Nat → Option (Nat × String × String)
  | _, 0 => none
  | i, fuel + 1 =>
    match findMatch address (deriv i) with
    | some c => some (i, c.2, c.1)
    | none => executorGo address deriv (i + 1) fuel

/-- `executor` from `src/main.rs` (lines 115-138) over the abstract
derivation collaborator: iterate `i` in `start..end` ascending, compute
the candidate list at `i`, and return `Some((i, value, kind))` at the
first candidate whose value equals `address`, else `None`. The `for`
range `start..end` is empty when `end <= start`, matching the truncated
subtraction used for the fuel. -/
def executor (address : String) (deriv : Nat → List (String × String))
    (ec : ExecutionConf) : Option (Nat × String × String) :=
  executorGo address deriv ec.start (ec.«end» - ec.start)

/-- Panic-aware outer loop of `executor` (lines 123-127): at each index
`i` the source first runs `i.try_into().unwrap()` (a `usize` to `u32`
conversion, panicking for `i ≥ 2^32`) and then
`account.address_at(0, _).unwrap()`, where `address_at` rejects any
non-hardened address index `≥ 2^31` (panicking at the unwrap); only
after both unwraps succeed are the candidates computed and compared.  A
panic is modelled as `Except.error`. -/
def executorPGo (address : String) (deriv : Nat → List (String × String)) :
    Nat → Nat → Except String (Option (Nat × String × String))
  | _, 0 => .ok none
  | i, fuel + 1 =>
    if i < 2 ^ 32 then
      if i < 2 ^ 31 then
        match findMatch address (deriv i) with
        | some c => .ok (some (i, c.2, c.1))
        | none => executorPGo address deriv (i + 1) fuel
      else .error "address_at: called unwrap on an Err value"
    else .error "try_into: called unwrap on an Err value"

/-- `executor` with the index-conversion and path-building panics of the
source made explicit. -/
def executorP (address : String) (deriv : Nat → List (String × String))
    (ec : ExecutionConf) : Except String (Option (Nat × String × String)) :=
  executorPGo address deriv ec.start (ec.«end» - ec.start)

/-- Loop over the slices of `main` (lines 339-352), in slice order,
stopping at the first chunk whose `executor` reports a match (the
process `exit(0)`s there). -/
def searchGo (config : SearchConfig) (deriv : Nat → List (String × String)) :
    Nat → Nat → Option (Nat × String × String)
  | _, 0 => none
  | s, fuel + 1 =>
    match executor config.address deriv (get_executor_config config s) with
    | some r => some r
    | none => searchGo config deriv (s + 1) fuel

/-- The whole search of `main`: compute the slice count (panicking on a
zero `chunksize`) and run every chunk through `executor` until a match
is found. -/
def searchE (config : SearchConfig) (deriv : Nat → List (String × String)) :
    Except String (Option (Nat × String × String)) :=
  match slicesChecked config with
  | .error e => .error e
  | .ok n => .ok (searchGo config deriv 0 n)

/-- `address_compute` from `src/main.rs` (lines 65-77), over an abstract
public-key type and abstract encoders (the encodings themselves are the
external collaborator): the `p2wpkh` and `p2shwpkh` constructors return
a `Result` in the underlying library — failing only for uncompressed
keys, which an `ExtendedPubKey` never carries — and the source unwraps
them, modelled as `Option` with the unwrap panic as `Except.error`. -/
def address_compute {PubKey : Type} (p2pkhOf : PubKey → String)
    (p2wpkhOf p2shwpkhOf : PubKey → Option String) (pubkey : PubKey) :
    Except String (List (String × String)) :=
  let p2pkh := p2pkhOf pubkey
  match p2wpkhOf pubkey with
  | none => .error "p2wpkh: called unwrap on an Err value"
  | some p2wpkh =>
    match p2shwpkhOf pubkey with
    | none => .error "p2shwpkh: called unwrap on an Err value"
    | some p2shwpkh =>
      .ok [("p2pkh", p2pkh), ("p2wpkh", p2wpkh), ("p2shwpkh", p2shwpkh)]

/-- A concrete derivation collaborator for test inputs: every index has a
single candidate of kind `p2pkh`, whose value is `T` exactly at index
`m` and `N` everywhere else.  The target value `T` therefore occurs at
index `m` and nowhere else. -/
def derivOnlyAt (m : Nat) : Nat → List (String × String) :=
  fun i => [("p2pkh", if i = m then "T" else "N")]

/-- The inner candidate loop reports no match exactly when no candidate
value in the list equals the target. -/
theorem findMatch_eq_none_iff (a : String) (l : List (String × String)) :
    findMatch a l = none ↔ ∀ c ∈ l, c.2 ≠ a := by
  induction l with
  | nil => simp [findMatch]
  | cons x t ih =>
    by_cases h : x.2 = a
    · simp [findMatch, h]
    · simp [findMatch, h, ih]

/-- The inner candidate loop returns `c` exactly when `c` matches the
target and every candidate placed before `c` in the list does not. -/
theorem findMatch_eq_some_iff (a : String) (l : List (String × String))
    (c : String × String) :
    findMatch a l = some c ↔
      c.2 = a ∧ ∃ pre post, l = pre ++ c :: post ∧ ∀ d ∈ pre, d.2 ≠ a := by
  induction l with
  | nil =>
    constructor
    · intro h; simp [findMatch] at h
    · rintro ⟨-, pre, post, heq, -⟩
      exact absurd heq (by cases pre <;> simp)
  | cons x t ih =>
    by_cases h : x.2 = a
    · simp only [findMatch, if_pos h]
      constructor
      · intro hx
        obtain rfl : x = c := Option.some.inj hx
        exact ⟨h, [], t, rfl, by simp⟩
      · rintro ⟨hc, pre, post, heq, hpre⟩
        cases pre with
        | nil =>
          simp only [List.nil_append, List.cons.injEq] at heq
          rw [heq.1]
        | cons y pre' =>
          simp only [List.cons_append, List.cons.injEq] at heq
          exact absurd (heq.1 ▸ h) (hpre y (by simp))
    · simp only [findMatch, if_neg h]
      rw [ih]
      constructor
      · rintro ⟨hc, pre, post, heq, hpre⟩
        refine ⟨hc, x :: pre, post, by simp [heq], ?_⟩
        intro d hd
        rcases List.mem_cons.mp hd with rfl | hd
        · exact h
        · exact hpre d hd
      · rintro ⟨hc, pre, post, heq, hpre⟩
        cases pre with
        | nil =>
          simp only [List.nil_append, List.cons.injEq] at heq
          exact absurd (heq.1 ▸ hc) h
        | cons y pre' =>
          simp only [List.cons_append, List.cons.injEq] at heq
          exact ⟨hc, pre', post, heq.2,
            fun d hd => hpre d (List.mem_cons_of_mem _ hd)⟩

/-- Characterisation of the outer scan loop: it returns `(i, v, k)`
exactly when `i` is inside the scanned window, the candidate loop at `i`
returns `(k, v)`, and every earlier index of the window has no match. -/
theorem executorGo_eq_some_iff (a : String) (deriv : Nat → List (String × String))
    (fuel : Nat) :
    ∀ s i v k,
      executorGo a deriv s fuel = some (i, v, k) ↔
        s ≤ i ∧ i < s + fuel ∧ findMatch a (deriv i) = some (k, v) ∧
          ∀ j, s ≤ j → j < i → findMatch a (deriv j) = none := by
  induction fuel with
  | zero =>
    intro s i v k
    simp only [executorGo]
    constructor
    · intro h; cases h
    · rintro ⟨h1, h2, -, -⟩; omega
  | succ f ih =>
    intro s i v k
    cases hm : findMatch a (deriv s) with
    | some c =>
      simp only [executorGo, hm]
      constructor
      · intro h
        simp only [Option.some.injEq, Prod.mk.injEq] at h
        obtain ⟨rfl, rfl, rfl⟩ := h
        exact ⟨le_refl s, by omega, hm, by omega⟩
      · rintro ⟨h1, h2, h3, h4⟩
        rcases Nat.eq_or_lt_of_le h1 with rfl | hi
        · rw [hm] at h3
          obtain rfl := Option.some.inj h3
          rfl
        · rw [h4 s le_rfl hi] at hm
          cases hm
    | none =>
      simp only [executorGo, hm]
      rw [ih (s + 1) i v k]
      constructor
      · rintro ⟨h1, h2, h3, h4⟩
        refine ⟨by omega, by omega, h3, ?_⟩
        intro j hj1 hj2
        rcases Nat.eq_or_lt_of_le hj1 with rfl | hj
        · exact hm
        · exact h4 j (by omega) hj2
      · rintro ⟨h1, h2, h3, h4⟩
        have hi : i ≠ s := by
          rintro rfl
          rw [hm] at h3
          cases h3
        exact ⟨by omega, by omega, h3, fun j hj1 hj2 => h4 j (by omega) hj2⟩

/-- Two derivation collaborators that agree on the scanned window give
the outer loop identical results: the scan reads nothing outside its
window. -/
theorem executorGo_congr (a : String) (deriv deriv' : Nat → List (String × String))
    (fuel : Nat) :
    ∀ s, (∀ j, s ≤ j → j < s + fuel → deriv j = deriv' j) →
      executorGo a deriv s fuel = executorGo a deriv' s fuel := by
  induction fuel with
  | zero => intro s _; rfl
  | succ f ih =>
    intro s h
    have hs := h s le_rfl (by omega)
    simp only [executorGo, hs]
    cases findMatch a (deriv' s) with
    | some c => rfl
    | none => exact ih (s + 1) (fun j hj1 hj2 => h j (by omega) (by omega))

/-- When the whole scanned window stays below `2^31`, the panic-aware
loop never panics and agrees with the pure loop. -/
theorem executorPGo_eq_ok (a : String) (deriv : Nat → List (String × String))
    (fuel : Nat) :
    ∀ s, s + fuel ≤ 2 ^ 31 →
      executorPGo a deriv s fuel = .ok (executorGo a deriv s fuel) := by
  induction fuel with
  | zero => intro s _; rfl
  | succ f ih =>
    intro s hs
    have h32 : s < 2 ^ 32 := by omega
    have h31 : s < 2 ^ 31 := by omega
    cases hm : findMatch a (deriv s) with
    | some c => simp only [executorPGo, executorGo, if_pos h32, if_pos h31, hm]
    | none =>
      simp only [executorPGo, executorGo, if_pos h32, if_pos h31, hm]
      exact ih (s + 1) (by omega)

/-- The panic-aware loop panics exactly when its window contains an
index `≥ 2^31` and no candidate matches at any window index below
`2^31` (the scan ascends, so such a match would return first). -/
theorem executorPGo_error_iff (a : String) (deriv : Nat → List (String × String))
    (fuel : Nat) :
    ∀ s,
      (∃ e, executorPGo a deriv s fuel = .error e) ↔
        ((∃ i, s ≤ i ∧ i < s + fuel ∧ 2 ^ 31 ≤ i) ∧
          ∀ j, s ≤ j → j < s + fuel → j < 2 ^ 31 →
            findMatch a (deriv j) = none) := by
  induction fuel with
  | zero =>
    intro s
    constructor
    · rintro ⟨e, h⟩; cases h
    · rintro ⟨⟨i, h1, h2, -⟩, -⟩; omega
  | succ f ih =>
    intro s
    by_cases h32 : s < 2 ^ 32
    · by_cases h31 : s < 2 ^ 31
      · cases hm : findMatch a (deriv s) with
        | some c =>
          simp only [executorPGo, if_pos h32, if_pos h31, hm]
          constructor
          · rintro ⟨e, h⟩; cases h
          · rintro ⟨-, hall⟩
            rw [hall s le_rfl (by omega) h31] at hm
            cases hm
        | none =>
          simp only [executorPGo, if_pos h32, if_pos h31, hm]
          rw [ih (s + 1)]
          constructor
          · rintro ⟨⟨i, h1, h2, h3⟩, hall⟩
            refine ⟨⟨i, by omega, by omega, h3⟩, ?_⟩
            intro j hj1 hj2 hj3
            rcases Nat.eq_or_lt_of_le hj1 with rfl | hj
            · exact hm
            · exact hall j (by omega) (by omega) hj3
          · rintro ⟨⟨i, h1, h2, h3⟩, hall⟩
            refine ⟨⟨i, by omega, by omega, h3⟩, ?_⟩
            intro j hj1 hj2 hj3
            exact hall j (by omega) (by omega) hj3
      · simp only [executorPGo, if_pos h32, if_neg h31]
        constructor
        · intro _
          refine ⟨⟨s, le_rfl, by omega, by omega⟩, ?_⟩
          intro j hj1 _ hj3
          exact absurd hj3 (by omega)
        · intro _
          exact ⟨_, rfl⟩
    · simp only [executorPGo, if_neg h32]
      constructor
      · intro _
        refine ⟨⟨s, le_rfl, by omega, by omega⟩, ?_⟩
        intro j hj1 _ hj3
        exact absurd hj3 (by omega)
      · intro _
        exact ⟨_, rfl⟩

/-- C1: the claim fails on the code.  For the range `[0, 5)` with
`chunkSize = 2` the code plans `(5 - 0) / 2 = 2` chunks (floor, not the
claimed `ceil = 3`), the planned chunks are `[0, 2)` and `[2, 4)`, so
their union misses index `4` and does not equal the range; and for the
range `[10, 25)` with `chunkSize = 5` chunk `0` is `[0, 5)` instead of
the claimed `[10, 15)`, because `get_executor_config` never reads
`config.start`. -/
theorem c1_plan_floor_and_offset_bug :
    slicesChecked ⟨0, 5, 2, "", ""⟩ = .ok 2 ∧
    (5 - 0 + 2 - 1) / 2 = 3 ∧
    get_executor_config ⟨0, 5, 2, "", ""⟩ 0 = ⟨0, 2⟩ ∧
    get_executor_config ⟨0, 5, 2, "", ""⟩ 1 = ⟨2, 4⟩ ∧
    get_executor_config ⟨10, 25, 5, "", ""⟩ 0 = ⟨0, 5⟩ :=
  ⟨rfl, rfl, rfl, rfl, rfl⟩

/-- C2: the claim fails on the code.  With range `[0, 5)`,
`chunkSize = 2` and a collaborator producing the target `T` at exactly
index `4` of the range, the search scans only the two planned chunks
`[0, 2)` and `[2, 4)` and returns none, although the claim requires a
match result with index `4`. -/
theorem c2_search_misses_range_tail :
    (∀ i, i < 5 → ((∃ c ∈ derivOnlyAt 4 i, c.2 = "T") ↔ i = 4)) ∧
    searchE ⟨0, 5, 2, "", "T"⟩ (derivOnlyAt 4) = .ok none :=
  ⟨by decide, rfl⟩

/-- C3: the claim fails on the code.  `--chunksize 0` parses to the
configuration value `0` (`load_config` accepts it), and `main` then
evaluates `(config.end - config.start) / config.chunksize`, a `usize`
division by zero, which panics; no InvalidConfiguration error exists
anywhere in the program. -/
theorem c3_chunksize_zero_divides_by_zero :
    load_config ⟨none, none, none, some "0", some "A"⟩ =
      some ⟨0, 10000000, 0, "", "A"⟩ ∧
    slicesChecked ⟨0, 10000000, 0, "", "A"⟩ =
      .error "attempt to divide by zero" ∧
    searchE ⟨0, 10000000, 0, "", "A"⟩ (derivOnlyAt 0) =
      .error "attempt to divide by zero" :=
  ⟨rfl, rfl, rfl⟩

/-- C4: the claim fails on the code.  For `start = 1`, `end = 0`,
`chunkSize = 1` the subtraction `config.end - config.start` wraps (in
the release profile; the debug profile panics), so the plan has
`2^64 - 1` chunks instead of the claimed empty sequence, chunk `1` is
`[1, 2)`, and the search invokes the collaborator and can even report a
match instead of returning none. -/
theorem c4_reversed_range_not_empty :
    slicesChecked ⟨1, 0, 1, "", "T"⟩ = .ok (2 ^ 64 - 1) ∧
    (2 ^ 64 - 1 ≠ 0) ∧
    get_executor_config ⟨1, 0, 1, "", "T"⟩ 1 = ⟨1, 2⟩ ∧
    searchE ⟨1, 0, 1, "", "T"⟩ (derivOnlyAt 1) = .ok (some (1, "T", "p2pkh")) :=
  ⟨rfl, by decide, rfl, rfl⟩

/-- C5: confirmed.  The worker returns `(i, v, k)` exactly when `i` lies
in its chunk, `v` equals the target, `(k, v)` is the earliest candidate
in the collaborator's order at index `i` whose value equals the target,
and no candidate at any smaller in-chunk index matches — i.e. the
returned index is the least matching index and the returned kind is the
first matching candidate at that index, as the scan stops there. -/
theorem c5_worker_first_match (a : String) (deriv : Nat → List (String × String))
    (ec : ExecutionConf) (i : Nat) (v k : String) :
    executor a deriv ec = some (i, v, k) ↔
      ec.start ≤ i ∧ i < ec.«end» ∧ v = a ∧
      (∃ pre post, deriv i = pre ++ (k, v) :: post ∧ ∀ d ∈ pre, d.2 ≠ a) ∧
      ∀ j, ec.start ≤ j → j < i → ∀ c ∈ deriv j, c.2 ≠ a := by
  unfold executor
  rw [executorGo_eq_some_iff]
  constructor
  · rintro ⟨h1, h2, h3, h4⟩
    rw [findMatch_eq_some_iff] at h3
    refine ⟨h1, by omega, h3.1, h3.2, ?_⟩
    intro j hj1 hj2
    have hj := h4 j hj1 hj2
    rw [findMatch_eq_none_iff] at hj
    exact hj
  · rintro ⟨h1, h2, h3, h4, h5⟩
    refine ⟨h1, by omega, ?_, ?_⟩
    · rw [findMatch_eq_some_iff]
      exact ⟨h3, h4⟩
    · intro j hj1 hj2
      rw [findMatch_eq_none_iff]
      exact h5 j hj1 hj2

/-- C6: the claim fails on the code for the Search half.  With range
`[5, 10)`, `chunkSize = 5` and a collaborator whose target value `T`
occurs only at index `2` — hence at no index of `[5, 10)` — the search
plans the single chunk `[0, 5)` (ignoring `config.start`), scans indices
outside the requested range, and returns a match at index `2` instead of
the claimed none. -/
theorem c6_search_matches_outside_range :
    (∀ i, i < 10 → 5 ≤ i → ∀ c ∈ derivOnlyAt 2 i, c.2 ≠ "T") ∧
    searchE ⟨5, 10, 5, "", "T"⟩ (derivOnlyAt 2) = .ok (some (2, "T", "p2pkh")) :=
  ⟨by decide, rfl⟩

/-- C7: confirmed.  Whenever an address is supplied, `load_config`
succeeds, and every absent or unparsable `start`/`end`/`chunksize`
argument is silently replaced by its default (`0`, `10000000`, `2500`),
with an absent passphrase defaulting to the empty string — no error is
ever reported for these fields. -/
theorem c7_load_config_silent_defaults (args : Args) (a : String)
    (ha : args.address = some a) :
    ∃ cfg, load_config args = some cfg ∧ cfg.address = a ∧
      (args.passphrase = none → cfg.passphrase = "") ∧
      (args.start = none → cfg.start = 0) ∧
      (∀ s, args.start = some s → parseUsize s = none → cfg.start = 0) ∧
      (args.«end» = none → cfg.«end» = 10000000) ∧
      (∀ s, args.«end» = some s → parseUsize s = none → cfg.«end» = 10000000) ∧
      (args.chunksize = none → cfg.chunksize = 2500) ∧
      (∀ s, args.chunksize = some s → parseUsize s = none → cfg.chunksize = 2500) := by
  obtain ⟨p, st, en, ch, ad⟩ := args
  simp only at ha
  subst ha
  refine ⟨_, rfl, rfl, ?_, ?_, ?_, ?_, ?_, ?_, ?_⟩
  · rintro rfl; rfl
  · rintro rfl; rfl
  · rintro s rfl hp; simp [hp]
  · rintro rfl; rfl
  · rintro s rfl hp; simp [hp]
  · rintro rfl; rfl
  · rintro s rfl hp; simp [hp]

/-- Witness for C7 at a concrete input: all three numeric flags present
but unparsable, passphrase absent, address present. -/
theorem c7_load_config_silent_defaults_witness :
    ∃ cfg,
      load_config ⟨none, some "abc", some "", some "12x", some "A"⟩ = some cfg ∧
      cfg.address = "A" ∧
      ((⟨none, some "abc", some "", some "12x", some "A"⟩ : Args).passphrase = none →
        cfg.passphrase = "") ∧
      ((⟨none, some "abc", some "", some "12x", some "A"⟩ : Args).start = none →
        cfg.start = 0) ∧
      (∀ s, (⟨none, some "abc", some "", some "12x", some "A"⟩ : Args).start = some s →
        parseUsize s = none → cfg.start = 0) ∧
      ((⟨none, some "abc", some "", some "12x", some "A"⟩ : Args).«end» = none →
        cfg.«end» = 10000000) ∧
      (∀ s, (⟨none, some "abc", some "", some "12x", some "A"⟩ : Args).«end» = some s →
        parseUsize s = none → cfg.«end» = 10000000) ∧
      ((⟨none, some "abc", some "", some "12x", some "A"⟩ : Args).chunksize = none →
        cfg.chunksize = 2500) ∧
      (∀ s, (⟨none, some "abc", some "", some "12x", some "A"⟩ : Args).chunksize = some s →
        parseUsize s = none → cfg.chunksize = 2500) :=
  c7_load_config_silent_defaults ⟨none, some "abc", some "", some "12x", some "A"⟩ "A" rfl

/-- C8: confirmed.  The planner and the worker are pure functions of
their inputs: repeated calls of `get_executor_config` on the same
configuration and iteration are identical, and the worker's result
depends only on the target and on the collaborator's candidates inside
its chunk — any collaborator agreeing there gives the identical result,
so repeated scans with the same inputs coincide and no input is
mutated. -/
theorem c8_planner_and_worker_pure (config : SearchConfig) (iteration : Nat)
    (a : String) (deriv deriv' : Nat → List (String × String))
    (ec : ExecutionConf)
    (h : ∀ j, ec.start ≤ j → j < ec.«end» → deriv j = deriv' j) :
    get_executor_config config iteration = get_executor_config config iteration ∧
    executor a deriv ec = executor a deriv' ec := by
  refine ⟨rfl, ?_⟩
  unfold executor
  exact executorGo_congr a deriv deriv' _ ec.start
    (fun j hj1 hj2 => h j hj1 (by omega))

/-- Witness for C8 at a concrete input. -/
theorem c8_planner_and_worker_pure_witness :
    get_executor_config ⟨0, 5, 2, "", "T"⟩ 0 = get_executor_config ⟨0, 5, 2, "", "T"⟩ 0 ∧
    executor "T" (derivOnlyAt 1) ⟨0, 3⟩ = executor "T" (derivOnlyAt 1) ⟨0, 3⟩ :=
  c8_planner_and_worker_pure ⟨0, 5, 2, "", "T"⟩ 0 "T" (derivOnlyAt 1) (derivOnlyAt 1)
    ⟨0, 3⟩ (fun _ _ _ => rfl)

/-- C10: confirmed.  Whenever the two fallible encoders succeed — which
is always the case for the compressed keys an `ExtendedPubKey` carries —
`address_compute` produces exactly three candidates, in the fixed kind
order `p2pkh`, `p2wpkh`, `p2shwpkh`. -/
theorem c10_three_candidates_fixed_order {PubKey : Type}
    (p2pkhOf : PubKey → String) (p2wpkhOf p2shwpkhOf : PubKey → Option String)
    (pubkey : PubKey) (w sh : String)
    (hw : p2wpkhOf pubkey = some w) (hsh : p2shwpkhOf pubkey = some sh) :
    ∃ l, address_compute p2pkhOf p2wpkhOf p2shwpkhOf pubkey = .ok l ∧
      l.length = 3 ∧ l.map Prod.fst = ["p2pkh", "p2wpkh", "p2shwpkh"] := by
  simp only [address_compute, hw, hsh]
  exact ⟨_, rfl, rfl, rfl⟩

/-- Witness for C10 at a concrete input. -/
theorem c10_three_candidates_fixed_order_witness :
    ∃ l,
      address_compute (fun _ : Unit => "a") (fun _ => some "b") (fun _ => some "c") () =
        .ok l ∧
      l.length = 3 ∧ l.map Prod.fst = ["p2pkh", "p2wpkh", "p2shwpkh"] :=
  c10_three_candidates_fixed_order (fun _ : Unit => "a") (fun _ => some "b")
    (fun _ => some "c") () "b" "c" rfl rfl

/-- C9, amended: at each in-chunk index `≥ 2^31` the unchecked unwraps
panic before any candidate is examined, so the worker panics exactly
when its chunk contains an index `≥ 2^31` and no candidate matches at
any smaller in-chunk index; and whenever `end ≤ 2^31` the worker is
total and agrees with the pure scan. -/
theorem c9_worker_panic_characterisation (a : String)
    (deriv : Nat → List (String × String)) (ec : ExecutionConf) :
    (ec.«end» ≤ 2 ^ 31 → executorP a deriv ec = .ok (executor a deriv ec)) ∧
    ((∃ e, executorP a deriv ec = .error e) ↔
      ((∃ i, ec.start ≤ i ∧ i < ec.«end» ∧ 2 ^ 31 ≤ i) ∧
        ∀ j, ec.start ≤ j → j < ec.«end» → j < 2 ^ 31 →
          findMatch a (deriv j) = none)) := by
  constructor
  · intro h
    unfold executorP executor
    by_cases hc : ec.start ≤ ec.«end»
    · exact executorPGo_eq_ok a deriv _ _ (by omega)
    · have h0 : ec.«end» - ec.start = 0 := by omega
      rw [h0]
      rfl
  · unfold executorP
    rw [executorPGo_error_iff]
    constructor
    · rintro ⟨⟨i, h1, h2, h3⟩, hall⟩
      exact ⟨⟨i, h1, by omega, h3⟩,
        fun j hj1 hj2 hj3 => hall j hj1 (by omega) hj3⟩
    · rintro ⟨⟨i, h1, h2, h3⟩, hall⟩
      exact ⟨⟨i, h1, by omega, h3⟩,
        fun j hj1 hj2 hj3 => hall j hj1 (by omega) hj3⟩

/-- C9 counterexample: the chunk `[0, 2^31 + 1)` contains the index
`2^31`, which is too large for a non-hardened address index, yet with a
collaborator matching the target at index `0` the worker returns a value
instead of panicking — the scan stops before reaching the oversized
index, refuting "panics whenever the chunk contains an index
`≥ 2^31`". -/
theorem c9_no_panic_on_early_match :
    (0 : Nat) ≤ 2 ^ 31 ∧ 2 ^ 31 < 2 ^ 31 + 1 ∧
    executorP "T" (fun _ => [("p2pkh", "T")]) ⟨0, 2 ^ 31 + 1⟩ =
      .ok (some (0, "T", "p2pkh")) :=
  ⟨Nat.zero_le _, by omega, rfl⟩

/-- Witness for the amended C9 theorem at a concrete input: a one-index
chunk below `2^31` never panics. -/
theorem c9_worker_panic_characterisation_witness :
    executorP "T" (fun _ => ([] : List (String × String))) ⟨0, 1⟩ =
      .ok (executor "T" (fun _ => []) ⟨0, 1⟩) :=
  (c9_worker_panic_characterisation "T" (fun _ => []) ⟨0, 1⟩).1 (by decide)

end HDIFinder
